import Mathlib

/-!
Verification of the snapdir directory-snapshot tool.

The development shallowly embeds the Go implementation (`cmd/main.go`:
`shouldIgnore`, `loadGitignore`, `cloneProject`, `restoreProject`, plus the
`FileInfo`/`ProjectSnapshot` JSON codec) into Lean.  Strings are modelled as
Lean `String`/`List Char` (the matcher works character-wise; all paths in the
program are treated as Unix paths, whose separator is '/').  The filesystem is
modelled explicitly: an `FSTree` for the capture side and a flat path-to-node
`World` for the restore side, with injected failure flags standing for the
I/O errors the operating system can report.
-/

namespace Snapdir

/-- Model of Go `filepath.ToSlash`.  On systems whose separator is already
'/' (the setting of this model) `ToSlash` is the identity function. -/
def toSlash (p : String) : String := p

/-- Model of Go `strings.Contains s sub` on character lists: `sub` occurs as a
contiguous substring of `s`. -/
def containsSub (s sub : List Char) : Bool :=
  sub.isPrefixOf s ||
    match s with
    | [] => false
    | _ :: t => containsSub t sub

/-- Model of Go `filepath.Base` (Unix rules): empty path gives ".", trailing
slashes are stripped, the last path element is returned, and an all-slash path
gives "/". -/
def goBase (path : String) : String :=
  if path = "" then "."
  else
    let stripped := (path.toList.reverse.dropWhile (fun c => c = '/')).reverse
    let last := (stripped.reverse.takeWhile (fun c => c ≠ '/')).reverse
    if last.isEmpty then "/" else String.mk last

/-! ### Go `filepath.Match`

A character-level model of Go's `path/filepath` glob matcher (`Match`,
`scanChunk`, `matchChunk`, `getEsc` from `match.go`, with `Separator = '/'`).
`Except.error ()` models `ErrBadPattern`. -/

/-- The leading-star scan of Go `scanChunk`: drop leading '*' characters. -/
def dropStars : List Char → List Char
  | '*' :: r => dropStars r
  | p => p

/-- Whether the pattern starts with '*' (the `star` result of `scanChunk`). -/
def hasStar (p : List Char) : Bool :=
  match p with
  | '*' :: _ => true
  | _ => false

/-- The chunk-splitting scan of Go `scanChunk`: split the pattern (after the
leading stars) at the first '*' that is not inside a '[' range; a '\' escape
consumes the following character. -/
def scanBody : List Char → Bool → List Char × List Char
  | [], _ => ([], [])
  | '\\' :: c :: rest, inr =>
      let (ch, r) := scanBody rest inr
      ('\\' :: c :: ch, r)
  | ['\\'], _ => (['\\'], [])
  | '[' :: rest, _ =>
      let (ch, r) := scanBody rest true
      ('[' :: ch, r)
  | ']' :: rest, _ =>
      let (ch, r) := scanBody rest false
      (']' :: ch, r)
  | '*' :: rest, inr =>
      if inr then
        let (ch, r) := scanBody rest inr
        ('*' :: ch, r)
      else ([], '*' :: rest)
  | c :: rest, inr =>
      let (ch, r) := scanBody rest inr
      (c :: ch, r)

/-- Go `scanChunk`: gather leading stars, then split off the first chunk. -/
def scanChunk (p : List Char) : Bool × List Char × List Char :=
  let (chunk, rest) := scanBody (dropStars p) false
  (hasStar p, chunk, rest)

/-- Go `getEsc`: read one (possibly '\'-escaped) character of a '[' range.
Errors ("ErrBadPattern") on an empty chunk, a leading '-' or ']', a dangling
escape, or when nothing follows the character. -/
def getEsc : List Char → Except Unit (Char × List Char)
  | [] => .error ()
  | c :: rest =>
    if c = '-' ∨ c = ']' then .error ()
    else if c = '\\' then
      match rest with
      | [] => .error ()
      | r :: nchunk => if nchunk.isEmpty then .error () else .ok (r, nchunk)
    else if rest.isEmpty then .error () else .ok (c, rest)

theorem getEsc_length {c : List Char} {r : Char} {nc : List Char}
    (h : getEsc c = .ok (r, nc)) : nc.length < c.length := by
  match c with
  | [] => simp [getEsc] at h
  | c0 :: rest =>
    simp only [getEsc] at h
    split at h
    · exact absurd h (by simp)
    · split at h
      · match rest with
        | [] => simp at h
        | r0 :: nchunk =>
          simp only at h
          split at h
          · exact absurd h (by simp)
          · simp only [Except.ok.injEq, Prod.mk.injEq] at h
            obtain ⟨h1, h2⟩ := h
            subst h2
            simp [List.length]
            omega
      · split at h
        · exact absurd h (by simp)
        · simp only [Except.ok.injEq, Prod.mk.injEq] at h
          obtain ⟨h1, h2⟩ := h
          subst h2
          simp

/-- The '[' range loop of Go `matchChunk`: parse the ranges of a character
class, recording in `acc` whether the rune `r` lies in any range; `nrange`
counts the ranges seen, and the chunk remaining after the closing ']' is
returned. -/
def matchRanges (r : Char) (chunk : List Char) (nrange : Nat) (acc : Bool) :
    Except Unit (Bool × List Char) :=
  if chunk.head? = some ']' ∧ 0 < nrange then .ok (acc, chunk.tail)
  else
    match hE : getEsc chunk with
    | .error e => .error e
    | .ok (lo, ch1) =>
      if hD : ch1.head? = some '-' then
        match hE2 : getEsc ch1.tail with
        | .error e => .error e
        | .ok (hi, ch3) =>
            matchRanges r ch3 (nrange + 1) (acc || decide (lo ≤ r ∧ r ≤ hi))
      else
        matchRanges r ch1 (nrange + 1) (acc || decide (lo ≤ r ∧ r ≤ lo))
termination_by chunk.length
decreasing_by
  · have h1 := getEsc_length hE
    have h2 := getEsc_length hE2
    have h3 : ch1.tail.length ≤ ch1.length := by
      cases ch1 <;> simp
    omega
  · have h1 := getEsc_length hE
    omega

theorem matchRanges_length :
    ∀ fuel : Nat, ∀ chunk : List Char, chunk.length ≤ fuel →
    ∀ (r : Char) (nr : Nat) (acc m : Bool) (ch' : List Char),
      matchRanges r chunk nr acc = .ok (m, ch') → ch'.length < chunk.length := by
  intro fuel
  induction fuel with
  | zero =>
    intro chunk hc r nr acc m ch' h
    have : chunk = [] := List.length_eq_zero.mp (Nat.le_zero.mp hc)
    subst this
    rw [matchRanges] at h
    simp [getEsc] at h
  | succ n ih =>
    intro chunk hc r nr acc m ch' h
    rw [matchRanges] at h
    split at h
    · rename_i hcond
      obtain ⟨hhd, _⟩ := hcond
      simp only [Except.ok.injEq, Prod.mk.injEq] at h
      obtain ⟨_, h2⟩ := h
      subst h2
      cases chunk with
      | nil => simp at hhd
      | cons a t => simp
    · split at h
      · exact absurd h (by simp)
      · rename_i lo ch1 hE
        have hlen1 := getEsc_length hE
        split at h
        · split at h
          · exact absurd h (by simp)
          · rename_i hD hi ch3 hE2
            have hlen2 := getEsc_length hE2
            have htail : ch1.tail.length ≤ ch1.length := by
              cases ch1 <;> simp
            have := ih ch3 (by omega) r (nr + 1) _ m ch' h
            omega
        · have := ih ch1 (by omega) r (nr + 1) _ m ch' h
          omega

theorem length_ite_tail (c : Prop) [Decidable c] (l : List Char) :
    (if c then l.tail else l).length ≤ l.length := by
  split
  · cases l <;> simp
  · exact Nat.le_refl _

/-- Go `matchChunk`: match a chunk (no '*') against the beginning of `s`.
Returns `(ok, rest)` where `rest` is what is left of `s`; `failed` records a
mismatch that has already happened while the rest of the chunk is still
scanned for syntax errors.  The separator is '/'. -/
def matchChunk (chunk s : List Char) (failed : Bool) :
    Except Unit (Bool × List Char) :=
  match chunk with
  | [] => if failed then .ok (false, []) else .ok (true, s)
  | c0 :: rest =>
    let failed1 := failed || s.isEmpty
    if c0 = '[' then
      match hR : matchRanges (if failed1 then Char.ofNat 0 else s.headD (Char.ofNat 0))
          (if rest.head? = some '^' then rest.tail else rest) 0 false with
      | .error e => .error e
      | .ok (m, ch') =>
          matchChunk ch' (if failed1 then s else s.tail)
            (failed1 || (m == decide (rest.head? = some '^')))
    else if c0 = '?' then
      if failed1 then matchChunk rest s failed1
      else
        match s with
        | sh :: st => matchChunk rest st (sh == '/')
        | [] => matchChunk rest s true
    else if c0 = '\\' then
      match rest with
      | [] => .error ()
      | c1 :: rest1 =>
        if failed1 then matchChunk rest1 s failed1
        else
          match s with
          | sh :: st => matchChunk rest1 st (c1 != sh)
          | [] => matchChunk rest1 s true
    else
      if failed1 then matchChunk rest s failed1
      else
        match s with
        | sh :: st => matchChunk rest st (c0 != sh)
        | [] => matchChunk rest s true
termination_by chunk.length
decreasing_by
  · have h1 := matchRanges_length _ _ (Nat.le_refl _) _ _ _ _ _ hR
    exact Nat.lt_of_lt_of_le h1 (Nat.le_trans (length_ite_tail _ _) (by simp))
  all_goals simp <;> omega

/-- Unfolding equation for `matchRanges` with a plain (non-dependent) match,
suitable for evaluation by rewriting. -/
theorem matchRanges_eq (r : Char) (chunk : List Char) (nrange : Nat) (acc : Bool) :
    matchRanges r chunk nrange acc =
      if chunk.head? = some ']' ∧ 0 < nrange then .ok (acc, chunk.tail)
      else
        match getEsc chunk with
        | .error e => .error e
        | .ok (lo, ch1) =>
          if ch1.head? = some '-' then
            match getEsc ch1.tail with
            | .error e => .error e
            | .ok (hi, ch3) =>
                matchRanges r ch3 (nrange + 1) (acc || decide (lo ≤ r ∧ r ≤ hi))
          else
            matchRanges r ch1 (nrange + 1) (acc || decide (lo ≤ r ∧ r ≤ lo)) := by
  rw [matchRanges]
  split
  · rfl
  · split
    · rename_i e heq
      rw [heq]
    · rename_i lo ch1 heq
      rw [heq]
      split
      · rename_i hD
        split
        · rename_i e2 heq2
          simp [hD, heq2]
        · rename_i hi ch3 heq2
          simp [hD, heq2]
      · rename_i hD
        simp [hD]

/-- Unfolding equation for `matchChunk` with a plain (non-dependent) match,
suitable for evaluation by rewriting. -/
theorem matchChunk_eq (chunk s : List Char) (failed : Bool) :
    matchChunk chunk s failed =
      match chunk with
      | [] => if failed then .ok (false, []) else .ok (true, s)
      | c0 :: rest =>
        let failed1 := failed || s.isEmpty
        if c0 = '[' then
          match matchRanges (if failed1 then Char.ofNat 0 else s.headD (Char.ofNat 0))
              (if rest.head? = some '^' then rest.tail else rest) 0 false with
          | .error e => .error e
          | .ok (m, ch') =>
              matchChunk ch' (if failed1 then s else s.tail)
                (failed1 || (m == decide (rest.head? = some '^')))
        else if c0 = '?' then
          if failed1 then matchChunk rest s failed1
          else
            match s with
            | sh :: st => matchChunk rest st (sh == '/')
            | [] => matchChunk rest s true
        else if c0 = '\\' then
          match rest with
          | [] => .error ()
          | c1 :: rest1 =>
            if failed1 then matchChunk rest1 s failed1
            else
              match s with
              | sh :: st => matchChunk rest1 st (c1 != sh)
              | [] => matchChunk rest1 s true
        else
          if failed1 then matchChunk rest s failed1
          else
            match s with
            | sh :: st => matchChunk rest st (c0 != sh)
            | [] => matchChunk rest s true := by
  cases chunk with
  | nil => rw [matchChunk.eq_def]
  | cons c0 rest =>
    rw [matchChunk.eq_def]
    simp only []
    by_cases hc : c0 = '['
    · subst hc
      simp only [reduceIte]
      split
      · rename_i e heq
        rw [heq]
      · rename_i m ch' heq
        rw [heq]
    · rw [if_neg hc, if_neg hc]

theorem scanBody_rest_le (p : List Char) (inr : Bool) :
    (scanBody p inr).2.length ≤ p.length := by
  induction p, inr using scanBody.induct <;> simp_all [scanBody] <;> omega

theorem dropStars_le (p : List Char) : (dropStars p).length ≤ p.length := by
  induction p using dropStars.induct <;> simp_all [dropStars] <;> omega

theorem dropStars_head (p : List Char) : (dropStars p).head? ≠ some '*' := by
  induction p using dropStars.induct with
  | case1 r ih => simpa [dropStars] using ih
  | case2 p hne =>
    cases p with
    | nil => simp [dropStars]
    | cons c t =>
      have hc : c ≠ '*' := fun h => hne t (by rw [h])
      simp [dropStars, hc]

theorem scanBody_rest_lt (p : List Char) (inr : Bool) (hp : p ≠ [])
    (hstar : p.head? = some '*' → inr = true) :
    (scanBody p inr).2.length < p.length := by
  induction p, inr using scanBody.induct with
  | case1 x => exact absurd rfl hp
  | case2 c rest inr ch r heq ih =>
      have hle := scanBody_rest_le rest inr
      rw [heq] at hle
      simp at hle
      simp [scanBody, heq]
      omega
  | case3 x => simp [scanBody]
  | case4 rest x ch r heq ih =>
      have hle := scanBody_rest_le rest true
      rw [heq] at hle
      simp at hle
      simp [scanBody, heq]
      omega
  | case5 rest x ch r heq ih =>
      have hle := scanBody_rest_le rest false
      rw [heq] at hle
      simp at hle
      simp [scanBody, heq]
      omega
  | case6 rest ch r heq ih =>
      have hle := scanBody_rest_le rest true
      rw [heq] at hle
      simp at hle
      simp [scanBody, heq]
      omega
  | case7 rest inr hni => exact absurd (hstar (by simp)) hni
  | case8 c rest inr h1 h2 h3 h4 h5 ch r heq ih =>
      have hle := scanBody_rest_le rest inr
      rw [heq] at hle
      simp at hle
      simp_all [scanBody]
      omega

theorem scanChunk_rest_lt (p : List Char) (hp : p ≠ []) :
    (scanChunk p).2.2.length < p.length := by
  have hdlen := dropStars_le p
  by_cases hd : dropStars p = []
  · cases p with
    | nil => exact absurd rfl hp
    | cons c t => simp [scanChunk, hd, scanBody]
  · have hlt := scanBody_rest_lt (dropStars p) false hd
      (fun h => absurd h (dropStars_head p))
    rcases hsb : scanBody (dropStars p) false with ⟨chunk, rest⟩
    rw [hsb] at hlt
    simp at hlt
    simp [scanChunk, hsb]
    omega

/-- The `star` inner loop of Go `Match`: try to match the chunk at every
position of `name` after skipping one more character, never skipping past a
'/'.  `rest` is the pattern remaining after the chunk.  Returns `some t` when
a position matched (with `t` the remaining name), and `none` when the loop
ran out. -/
def starLoop (chunk rest : List Char) : List Char → Except Unit (Option (List Char))
  | [] => .ok none
  | c :: name1 =>
    if c = '/' then .ok none
    else
      match matchChunk chunk name1 false with
      | .ok (true, t) =>
          if rest.isEmpty && !t.isEmpty then starLoop chunk rest name1
          else .ok (some t)
      | .ok (false, _) => starLoop chunk rest name1
      | .error e => .error e

/-- The final syntax scan of Go `Match`: before returning a no-match result,
check that the remainder of the pattern is syntactically valid by running
every remaining chunk against the empty string. -/
def chunksValid (p : List Char) : Except Unit Unit :=
  if hp : p = [] then .ok ()
  else
    match matchChunk (scanChunk p).2.1 [] false with
    | .error e => .error e
    | .ok _ => chunksValid (scanChunk p).2.2
termination_by p.length
decreasing_by
  exact scanChunk_rest_lt p hp

/-- Go `filepath.Match` on character lists (Unix separator '/').  Scans the
pattern chunk by chunk; a chunk led by '*' may be matched at any position of
the current name short of a '/'. -/
def goMatchAux (pattern name : List Char) : Except Unit Bool :=
  if hp : pattern = [] then .ok name.isEmpty
  else
    let star := (scanChunk pattern).1
    let chunk := (scanChunk pattern).2.1
    let rest := (scanChunk pattern).2.2
    if star && chunk.isEmpty then .ok (!name.contains '/')
    else
      match matchChunk chunk name false with
      | .ok (true, t) =>
        if t.isEmpty || !rest.isEmpty then goMatchAux rest t
        else if star then
          match starLoop chunk rest name with
          | .error e => .error e
          | .ok (some t2) => goMatchAux rest t2
          | .ok none =>
            match chunksValid rest with
            | .error e => .error e
            | .ok _ => .ok false
        else
          match chunksValid rest with
          | .error e => .error e
          | .ok _ => .ok false
      | .ok (false, _) =>
        if star then
          match starLoop chunk rest name with
          | .error e => .error e
          | .ok (some t2) => goMatchAux rest t2
          | .ok none =>
            match chunksValid rest with
            | .error e => .error e
            | .ok _ => .ok false
        else
          match chunksValid rest with
          | .error e => .error e
          | .ok _ => .ok false
      | .error e => .error e
termination_by pattern.length
decreasing_by
  all_goals exact scanChunk_rest_lt pattern hp

/-- Go `filepath.Match` on strings. -/
def goMatch (pattern name : String) : Except Unit Bool :=
  goMatchAux pattern.toList name.toList

/-- Model of `shouldIgnore` from `cmd/main.go`: for each pattern, first try a
glob match of the pattern against the path's basename (a malformed pattern is
logged and skipped), then check whether the slash-normalized path contains the
pattern as a substring. -/
def shouldIgnore (path : String) : List String → Bool
  | [] => false
  | pat :: rest =>
    match goMatch pat (goBase path) with
    | .error _ => shouldIgnore path rest
    | .ok true => true
    | .ok false =>
      if containsSub (toSlash path).toList pat.toList then true
      else shouldIgnore path rest

/-! Sanity checks: the cases of `TestShouldIgnore` from `cmd/main_test.go`. -/

example : shouldIgnore "test.log" ["*.log"] = true := by
  simp [shouldIgnore, goBase, toSlash, containsSub, goMatch, goMatchAux,
    scanChunk, scanBody, dropStars, hasStar, matchChunk_eq, matchRanges_eq, getEsc,
    starLoop, chunksValid]

example : shouldIgnore "node_modules/package" ["node_modules"] = true := by
  simp [shouldIgnore, goBase, toSlash, containsSub, goMatch, goMatchAux,
    scanChunk, scanBody, dropStars, hasStar, matchChunk_eq, matchRanges_eq, getEsc,
    starLoop, chunksValid]

example : shouldIgnore "src/main.go" ["*.log", "node_modules"] = false := by
  simp [shouldIgnore, goBase, toSlash, containsSub, goMatch, goMatchAux,
    scanChunk, scanBody, dropStars, hasStar, matchChunk_eq, matchRanges_eq, getEsc,
    starLoop, chunksValid]

example : shouldIgnore "src/.git/config" [".git"] = true := by
  simp [shouldIgnore, goBase, toSlash, containsSub, goMatch, goMatchAux,
    scanChunk, scanBody, dropStars, hasStar, matchChunk_eq, matchRanges_eq, getEsc,
    starLoop, chunksValid]

example : shouldIgnore "any/path" [] = false := rfl

example : shouldIgnore "test.tmp" ["*.tmp", "*.log"] = true := by
  simp [shouldIgnore, goBase, toSlash, containsSub, goMatch, goMatchAux,
    scanChunk, scanBody, dropStars, hasStar, matchChunk_eq, matchRanges_eq, getEsc,
    starLoop, chunksValid]

/-- A malformed pattern makes the glob matcher report `ErrBadPattern`. -/
example : goMatch "[" "a[b" = .error () := by
  simp [goMatch, goMatchAux, scanChunk, scanBody, dropStars, hasStar,
    matchChunk_eq, matchRanges_eq, getEsc, starLoop, chunksValid]

example : shouldIgnore "a[b" ["["] = false := by
  simp [shouldIgnore, goBase, toSlash, containsSub, goMatch, goMatchAux,
    scanChunk, scanBody, dropStars, hasStar, matchChunk_eq, matchRanges_eq, getEsc,
    starLoop, chunksValid]

/-! ### Snapshot data model (`FileInfo`, `ProjectSnapshot` from `cmd/main.go`) -/

/-- `FileInfo`: one file-or-directory record of the snapshot.  `mode` holds the
Unix permission bits (`uint32` in the source, here a `Nat`). -/
structure FileInfo where
  path : String
  contents : String
  isDir : Bool
  mode : Nat
deriving DecidableEq

/-- `ProjectSnapshot`: the complete directory snapshot. -/
structure ProjectSnapshot where
  version : String
  files : List FileInfo
deriving DecidableEq

/-- The constant `version = "1.0.0"`. -/
def snapVersion : String := "1.0.0"

/-- The constant `defaultPerms = 0644`. -/
def defaultPerms : Nat := 0o644

/-- The constant `dirPerms = 0755`. -/
def dirPerms : Nat := 0o755

/-- The constant `maxFileSize = 100 * 1024 * 1024`. -/
def maxFileSize : Nat := 100 * 1024 * 1024

/-! ### The JSON codec (`encoding/json` with the struct tags of `cmd/main.go`)

`json.MarshalIndent`/`json.Unmarshal` are modelled at the level of JSON
documents (trees), not of their printed text: `Json` is the document produced
by marshalling, and decoding reads it back.  The struct tags are
`path` / `contents,omitempty` / `is_dir` / `mode,omitempty`: a field marked
`omitempty` is omitted from the document when its value is the zero value
(`""` for strings, `0` for integers), and `json.Unmarshal` fills absent
fields with their zero values. -/

/-- JSON documents. -/
inductive Json where
  | null
  | bool (b : Bool)
  | num (n : Nat)
  | str (s : String)
  | arr (elems : List Json)
  | obj (fields : List (String × Json))

/-- Marshal one `FileInfo` (field order and `omitempty` as in the Go struct). -/
def encodeFileInfo (f : FileInfo) : Json :=
  Json.obj (("path", Json.str f.path) ::
    (if f.contents = "" then [] else [("contents", Json.str f.contents)]) ++
    ("is_dir", Json.bool f.isDir) ::
    (if f.mode = 0 then [] else [("mode", Json.num f.mode)]))

/-- Marshal a `ProjectSnapshot`. -/
def encodeSnapshot (s : ProjectSnapshot) : Json :=
  Json.obj [("version", Json.str s.version),
    ("files", Json.arr (s.files.map encodeFileInfo))]

/-- Look up a field of a JSON object. -/
def getField (j : Json) (k : String) : Option Json :=
  match j with
  | .obj fs => (fs.find? (fun e => e.1 = k)).map (fun e => e.2)
  | _ => none

/-- Unmarshal a string field: absent or `null` yields the zero value `""`,
a value of any other type is a type error. -/
def decodeStrField (j : Json) (k : String) : Except Unit String :=
  match getField j k with
  | none => .ok ""
  | some .null => .ok ""
  | some (.str s) => .ok s
  | some _ => .error ()

/-- Unmarshal a bool field: absent or `null` yields `false`. -/
def decodeBoolField (j : Json) (k : String) : Except Unit Bool :=
  match getField j k with
  | none => .ok false
  | some .null => .ok false
  | some (.bool b) => .ok b
  | some _ => .error ()

/-- Unmarshal an unsigned integer field: absent or `null` yields `0`. -/
def decodeNatField (j : Json) (k : String) : Except Unit Nat :=
  match getField j k with
  | none => .ok 0
  | some .null => .ok 0
  | some (.num n) => .ok n
  | some _ => .error ()

/-- Unmarshal one `FileInfo`; a JSON `null` leaves the zero struct. -/
def decodeFileInfo (j : Json) : Except Unit FileInfo :=
  match j with
  | .null => .ok ⟨"", "", false, 0⟩
  | .obj _ => do
    let p ← decodeStrField j "path"
    let c ← decodeStrField j "contents"
    let d ← decodeBoolField j "is_dir"
    let m ← decodeNatField j "mode"
    pure ⟨p, c, d, m⟩
  | _ => .error ()

/-- Unmarshal a list of `FileInfo` documents. -/
def decodeFiles : List Json → Except Unit (List FileInfo)
  | [] => .ok []
  | j :: rest => do
    let f ← decodeFileInfo j
    let fs ← decodeFiles rest
    pure (f :: fs)

/-- Unmarshal a `ProjectSnapshot`; a JSON `null` leaves the zero struct, and
anything other than an object is a type error. -/
def decodeSnapshot (j : Json) : Except Unit ProjectSnapshot :=
  match j with
  | .null => .ok ⟨"", []⟩
  | .obj _ => do
    let v ← decodeStrField j "version"
    let fs ← match getField j "files" with
      | none => Except.ok []
      | some .null => Except.ok []
      | some (.arr xs) => decodeFiles xs
      | some _ => Except.error ()
    pure ⟨v, fs⟩
  | _ => .error ()

/-! ### `loadGitignore` -/

/-- Split a character list at every newline (the lines delivered by
`bufio.Scanner`, which drops the terminators). -/
def splitLinesCh : List Char → List (List Char)
  | [] => [[]]
  | '\n' :: r => [] :: splitLinesCh r
  | c :: r =>
    match splitLinesCh r with
    | [] => [[c]]
    | h :: t => (c :: h) :: t

/-- Model of Go `strings.TrimSpace` on a character list. -/
def trimSpace (l : List Char) : List Char :=
  ((l.dropWhile Char.isWhitespace).reverse.dropWhile Char.isWhitespace).reverse

/-- The non-blank, non-comment `.gitignore` lines, trimmed, in file order
(the scanner loop of `loadGitignore`). -/
def gitignoreLines (contents : String) : List String :=
  (((splitLinesCh contents.toList).map (fun l => String.mk (trimSpace l))).filter
    (fun l => !(l == "") && !(l.toList.head? == some '#')))

/-- Model of `loadGitignore`: start from the built-in pattern `".git"`; when a
readable `.gitignore` file exists among the root's entries, append its
non-blank, non-`#` lines in order.  (The `FSTree` type of the capture model is
defined below; this function receives the root's entry list.) -/
def loadGitignorePatterns (gitignore : Option String) : List String :=
  match gitignore with
  | none => [".git"]
  | some contents => ".git" :: gitignoreLines contents

/-! ### Capture (`cloneProject`)

The source tree is modelled as an `FSTree`.  A directory's entries appear in
the order `filepath.WalkDir` visits them (lexical order of names); `readOk`
and `listOk` are injected failure flags: `readOk = false` means `os.ReadFile`
fails on the file, `listOk = false` means reading the directory's entry list
fails (`WalkDir` then reports the error on the directory itself).  A file's
size, as reported by `Info`, is the length of its contents. -/

/-- A node of the source tree.  `perm` holds the node's permission bits
(what `info.Mode().Perm()` reports). -/
inductive FSTree where
  | file (contents : String) (perm : Nat) (readOk : Bool)
  | dir (perm : Nat) (entries : List (String × FSTree)) (listOk : Bool)

/-- Join path segments with '/' (the slash-normalized relative path that
`filepath.Rel` + `filepath.ToSlash` produce for a visited node). -/
def joinSlash : List String → String
  | [] => ""
  | [s] => s
  | s :: rest => s ++ "/" ++ joinSlash rest

/-- Errors of the capture operation.  The walk errors carry the relative path
(in segments) of the node they identify. -/
inductive CloneErr where
  | invalidSource
  | notADirectory
  | accessError (path : List String)
  | readError (path : List String)
deriving DecidableEq

/-- The path an error identifies, when it identifies one. -/
def CloneErr.errPath : CloneErr → Option (List String)
  | .accessError p => some p
  | .readError p => some p
  | _ => none

mutual
/-- One step of the `filepath.WalkDir` callback in `cloneProject`, on the node
`t` named `name` whose parent has relative path `rel`: consult `shouldIgnore`
(pruning a matching directory's whole subtree and skipping a matching file),
then record the entry — for a file, only if its size is within `maxB`, reading
its contents; for a directory, recurse into its entries.  Returns the
snapshot entries contributed by this subtree, or the error that aborts the
whole walk. -/
def walkEntry (pats : List String) (maxB : Nat) (rel : List String)
    (name : String) (t : FSTree) : Except CloneErr (List FileInfo) :=
  let rp := rel ++ [name]
  if shouldIgnore (joinSlash rp) pats then .ok []
  else
    match t with
    | .file contents perm readOk =>
      if contents.length > maxB then .ok []
      else if !readOk then .error (.readError rp)
      else .ok [⟨joinSlash rp, contents, false, perm⟩]
    | .dir perm entries listOk =>
      if !listOk then .error (.accessError rp)
      else do
        let sub ← walkEntries pats maxB rp entries
        pure (⟨joinSlash rp, "", true, perm⟩ :: sub)

/-- Walk a directory's entries in order, concatenating their contributions;
the first error aborts. -/
def walkEntries (pats : List String) (maxB : Nat) (rel : List String) :
    List (String × FSTree) → Except CloneErr (List FileInfo)
  | [] => .ok []
  | (n, t) :: rest => do
    let e ← walkEntry pats maxB rel n t
    let es ← walkEntries pats maxB rel rest
    pure (e ++ es)
end

/-- The `.gitignore` lookup of `loadGitignore` on the model tree: the contents
of a readable regular file named `.gitignore` among the root's entries.
(An unreadable file or a directory of that name opens but scans no lines, so
it contributes no patterns, like a missing file.) -/
def findGitignore (entries : List (String × FSTree)) : Option String :=
  match entries.find? (fun e => e.1 = ".gitignore") with
  | some (_, .file contents _ true) => some contents
  | _ => none

/-- Model of `cloneProject source outputFile`: validate that the source exists
and is a directory, load the ignore patterns (built-ins, `.gitignore` lines,
then the caller's extra patterns), walk the tree depth-first from the root
(the root itself, relative path ".", is skipped), and on success marshal the
snapshot.  `source = none` models a missing source path; the returned value is
the snapshot whose marshalled form is written to the output file — an error
means nothing is written, since `os.WriteFile` runs only after the walk has
succeeded. -/
def cloneProject (source : Option FSTree) (extra : List String) :
    Except CloneErr ProjectSnapshot :=
  match source with
  | none => .error .invalidSource
  | some (.file _ _ _) => .error .notADirectory
  | some (.dir _ entries listOk) =>
    let pats := loadGitignorePatterns (findGitignore entries) ++ extra
    if !listOk then .error (.accessError [])
    else do
      let files ← walkEntries pats maxFileSize [] entries
      pure ⟨snapVersion, files⟩

/-- The document written to the output file by `cloneProject`: present exactly
when the capture succeeded. -/
def cloneOutput (source : Option FSTree) (extra : List String) : Option Json :=
  match cloneProject source extra with
  | .ok s => some (encodeSnapshot s)
  | .error _ => none

/-! ### Restore (`restoreProject`)

The destination filesystem is a flat map from absolute paths (segment lists)
to nodes.  `statBroken` lists paths on which `os.Stat` fails with an error
other than not-exist (for example a permission error on a parent); the
creation and write operations themselves work on the map. -/

/-- A node of the destination filesystem. -/
inductive RNode where
  | dir (perm : Nat)
  | file (contents : String) (perm : Nat)
deriving DecidableEq

/-- The destination filesystem state. -/
structure World where
  nodes : List (List String × RNode)
  statBroken : List (List String)
deriving DecidableEq

/-- Look up the node at a path. -/
def lookupW (w : World) (p : List String) : Option RNode :=
  (w.nodes.find? (fun e => e.1 = p)).map (fun e => e.2)

/-- The kinds of `os.Stat` failure. -/
inductive StatErr where
  | notExist
  | permission
deriving DecidableEq

/-- Model of `os.Stat`: an error for paths in `statBroken`, otherwise the
node when present and a not-exist error when absent. -/
def statW (w : World) (p : List String) : Except StatErr RNode :=
  if p ∈ w.statBroken then .error .permission
  else
    match lookupW w p with
    | some n => .ok n
    | none => .error .notExist

/-- Errors of the restore operation. -/
inductive RErr where
  | decodeFailure
  | alreadyExists (dest : List String)
  | mkdirFailure (path : List String)
  | writeFailure (path : List String)
deriving DecidableEq

/-- Whether a path is an existing directory ("" , the filesystem root the
destination path hangs from, always is). -/
def isDirW (w : World) (p : List String) : Bool :=
  p.isEmpty ||
    match lookupW w p with
    | some (.dir _) => true
    | _ => false

/-- Create the single directory `p` if missing: an existing directory is kept
as is, an existing file is an error, and a missing entry is created with
permission `perm`. -/
def mkdirStep (w : World) (p : List String) (perm : Nat) : Except RErr World :=
  match lookupW w p with
  | some (.dir _) => .ok w
  | some (.file _ _) => .error (.mkdirFailure p)
  | none => .ok ⟨(p, .dir perm) :: w.nodes, w.statBroken⟩

/-- Walk down the prefixes of the remaining segments `todo` under `done`,
ensuring each is a directory (creating missing ones with `perm`). -/
def mkdirAllAux (w : World) (done todo : List String) (perm : Nat) :
    Except RErr World :=
  match todo with
  | [] => .ok w
  | s :: rest =>
    match mkdirStep w (done ++ [s]) perm with
    | .error e => .error e
    | .ok w' => mkdirAllAux w' (done ++ [s]) rest perm

/-- Model of `os.MkdirAll p perm`: nothing to do when `p` already is a
directory, an error when it is a file, and otherwise every missing ancestor
and `p` itself are created as directories with permission `perm`. -/
def mkdirAll (w : World) (p : List String) (perm : Nat) : Except RErr World :=
  match lookupW w p with
  | some (.dir _) => .ok w
  | some (.file _ _) => .error (.mkdirFailure p)
  | none => mkdirAllAux w [] p perm

/-- Model of `os.WriteFile p contents perm`: fails on a directory or when the
parent is not an existing directory; truncates an existing file (keeping its
permission bits, as `O_CREATE` applies `perm` only to newly created files);
creates a missing file with permission `perm`. -/
def writeFile (w : World) (p : List String) (contents : String) (perm : Nat) :
    Except RErr World :=
  match lookupW w p with
  | some (.dir _) => .error (.writeFailure p)
  | some (.file _ oldPerm) =>
    .ok ⟨w.nodes.map (fun e => if e.1 = p then (p, .file contents oldPerm) else e),
      w.statBroken⟩
  | none =>
    if isDirW w p.dropLast then .ok ⟨(p, .file contents perm) :: w.nodes, w.statBroken⟩
    else .error (.writeFailure p)

/-- Split a character list at every '/'. -/
def splitSlashCh : List Char → List (List Char)
  | [] => [[]]
  | '/' :: r => [] :: splitSlashCh r
  | c :: r =>
    match splitSlashCh r with
    | [] => [[c]]
    | h :: t => (c :: h) :: t

/-- Split a slash-separated snapshot path into segments
(`filepath.FromSlash` + `filepath.Join` on a Unix system). -/
def splitSlash (s : String) : List String :=
  (splitSlashCh s.toList).map (fun l => String.mk l)

/-- The entry loop of `restoreProject`: materialize each snapshot entry under
`dest` in order.  A directory entry is created (with its missing ancestors)
by `os.MkdirAll path (fs.FileMode file.Mode)` — the stored mode, applied
verbatim; a file entry first ensures its parent directory exists (with
`dirPerms`), then writes the contents with the stored mode, substituting
`defaultPerms` when the stored mode is zero.  The first error aborts, leaving
the partially populated destination in place. -/
def materialize (w : World) (dest : List String) :
    List FileInfo → World × Option RErr
  | [] => (w, none)
  | f :: rest =>
    let p := dest ++ splitSlash f.path
    if f.isDir then
      match mkdirAll w p f.mode with
      | .error e => (w, some e)
      | .ok w' => materialize w' dest rest
    else
      match mkdirAll w p.dropLast dirPerms with
      | .error e => (w, some e)
      | .ok w' =>
        let m := if f.mode = 0 then defaultPerms else f.mode
        match writeFile w' p f.contents m with
        | .error e => (w', some e)
        | .ok w'' => materialize w'' dest rest

/-- The creation phase of `restoreProject`, entered once the destination was
found not to exist: create the destination directory with `dirPerms`, then
materialize every entry. -/
def materializePhase (w : World) (dest : List String) (snap : ProjectSnapshot) :
    World × Option RErr :=
  match mkdirAll w dest dirPerms with
  | .error e => (w, some e)
  | .ok w' => materialize w' dest snap.files

/-- Model of `restoreProject configFile destination`: unmarshal the snapshot
document `doc` (the contents of the already-read config file), fail when the
destination's `os.Stat` succeeds (it already exists), and otherwise — on any
stat error — proceed to create the destination and materialize the entries.
The result pairs the final filesystem with the error, if any. -/
def restoreProject (w : World) (doc : Json) (dest : List String) :
    World × Option RErr :=
  match decodeSnapshot doc with
  | .error _ => (w, some .decodeFailure)
  | .ok snap =>
    match statW w dest with
    | .ok _ => (w, some (.alreadyExists dest))
    | .error _ => materializePhase w dest snap

/-! ### Codec lemmas and claims C2, C5 -/

theorem decodeFileInfo_encodeFileInfo (f : FileInfo) :
    decodeFileInfo (encodeFileInfo f) = .ok f := by
  obtain ⟨p, c, d, m⟩ := f
  by_cases hc : c = "" <;> by_cases hm : m = 0 <;>
    simp +decide [encodeFileInfo, decodeFileInfo, decodeStrField, decodeBoolField,
      decodeNatField, getField, List.find?, hc, hm, bind, Except.bind, pure,
      Except.pure]

theorem decodeFiles_map_encode (l : List FileInfo) :
    decodeFiles (l.map encodeFileInfo) = .ok l := by
  induction l with
  | nil => rfl
  | cons f rest ih =>
    simp [decodeFiles, decodeFileInfo_encodeFileInfo, ih, bind, Except.bind,
      pure, Except.pure]

/-- C2: decoding the encoded document of any snapshot gives back a snapshot
structurally equal to it — same version, same entry order, and for every
entry the same path, contents, directory flag, and mode. -/
theorem decode_encode_roundtrip (S : ProjectSnapshot) :
    decodeSnapshot (encodeSnapshot S) = .ok S := by
  obtain ⟨v, fs⟩ := S
  simp +decide [encodeSnapshot, decodeSnapshot, decodeStrField, getField,
    List.find?, decodeFiles_map_encode, bind, Except.bind, pure, Except.pure]

/-- C5 counterexample: a file entry whose contents are the empty string is
encoded without any `contents` field — not with an explicit `contents: ""` as
the claim states. -/
theorem encode_empty_contents_cex :
    getField (encodeFileInfo ⟨"empty.txt", "", false, 420⟩) "contents" = none ∧
    getField (encodeFileInfo ⟨"empty.txt", "", false, 420⟩) "contents" ≠
      some (Json.str "") := by
  constructor
  · rfl
  · intro h
    simp +decide [encodeFileInfo, getField, List.find?] at h

/-- C5 (amended): in the encoded document the `contents` field is present for
an entry exactly when the entry's contents are a nonempty string (so it is
present for non-directory, non-size-excluded entries with nonempty contents,
and carries them verbatim); an empty file is encoded with the `contents`
field omitted, indistinguishable from an absent field. -/
theorem encode_contents_presence (f : FileInfo) :
    (f.contents ≠ "" → getField (encodeFileInfo f) "contents" =
      some (Json.str f.contents)) ∧
    (f.contents = "" → getField (encodeFileInfo f) "contents" = none) := by
  constructor <;> intro h <;>
    simp +decide [encodeFileInfo, getField, List.find?, h]

theorem encode_contents_presence_witness :
    getField (encodeFileInfo ⟨"a.txt", "x", false, 420⟩) "contents" =
      some (Json.str "x") ∧
    getField (encodeFileInfo ⟨"b.txt", "", false, 420⟩) "contents" = none :=
  ⟨(encode_contents_presence ⟨"a.txt", "x", false, 420⟩).1 (by decide),
   (encode_contents_presence ⟨"b.txt", "", false, 420⟩).2 rfl⟩

/-! ### Ignore-matching lemmas and claims C1, C9 -/

theorem goMatchAux_nil (l : List Char) : goMatchAux [] l = .ok l.isEmpty := by
  rw [goMatchAux.eq_def]
  simp

theorem goMatch_empty (x : String) : goMatch "" x = .ok x.toList.isEmpty := by
  rw [goMatch]
  exact goMatchAux_nil x.toList

theorem containsSub_nil (s : List Char) : containsSub s [] = true := by
  cases s <;> simp [containsSub, List.isPrefixOf]

/-- C1 counterexample: the pattern "[" is a malformed glob and occurs as a
substring of the path "a[b", yet `shouldIgnore` rejects the path — a
malformed glob is skipped entirely, including its substring check, so the
claimed characterization fails here. -/
theorem shouldIgnore_malformed_substring_cex :
    containsSub (toSlash "a[b").toList "[".toList = true ∧
    goMatch "[" (goBase "a[b") = .error () ∧
    shouldIgnore "a[b" ["["] = false := by
  refine ⟨rfl, ?_, ?_⟩ <;>
    simp [shouldIgnore, goBase, toSlash, containsSub, goMatch, goMatchAux,
      scanChunk, scanBody, dropStars, hasStar, matchChunk_eq, matchRanges_eq,
      getEsc, starLoop, chunksValid]

/-- C1 (amended): `shouldIgnore p P` returns true if and only if some pattern
of `P` on which the glob matcher reports no error against `p`'s basename
either glob-matches that basename or occurs as a literal substring of the
slash-normalized `p`.  A pattern whose glob evaluation reports an error is
skipped entirely — it never matches, not even as a substring. -/
theorem shouldIgnore_characterization (p : String) (pats : List String) :
    shouldIgnore p pats = true ↔
      ∃ pat ∈ pats, ∃ b, goMatch pat (goBase p) = .ok b ∧
        (b = true ∨ containsSub (toSlash p).toList pat.toList = true) := by
  induction pats with
  | nil => simp [shouldIgnore]
  | cons hd tl ih =>
    simp only [shouldIgnore]
    cases hgm : goMatch hd (goBase p) with
    | error e => simp [hgm, ih]
    | ok b =>
      cases b with
      | true => simp [hgm]
      | false =>
        by_cases hcs : containsSub (toSlash p).data hd.data = true
        · simp [hgm, hcs]
        · simp [hgm, hcs, ih]

theorem shouldIgnore_of_empty_mem (p : String) :
    ∀ pats : List String, "" ∈ pats → shouldIgnore p pats = true := by
  intro pats h
  induction pats with
  | nil => simp at h
  | cons hd tl ih =>
    rcases List.mem_cons.mp h with heq | hmem
    · subst heq
      simp only [shouldIgnore]
      rw [goMatch_empty]
      cases hb : (goBase p).toList.isEmpty <;>
        simp [hb, containsSub_nil]
    · have htl := ih hmem
      simp only [shouldIgnore]
      cases hgm : goMatch hd (goBase p) with
      | error e => exact htl
      | ok b =>
        cases b with
        | true => rfl
        | false =>
          by_cases hcs : containsSub (toSlash p).data hd.data = true
          · simp [hcs]
          · simp [hcs, htl]

theorem walkEntry_ignored (pats : List String) (maxB : Nat) (rel : List String)
    (n : String) (t : FSTree)
    (h : shouldIgnore (joinSlash (rel ++ [n])) pats = true) :
    walkEntry pats maxB rel n t = .ok [] := by
  rw [walkEntry.eq_def]
  simp [h]

theorem walkEntries_cons_ignored (pats : List String) (maxB : Nat)
    (rel : List String) (n : String) (t : FSTree)
    (rest : List (String × FSTree))
    (h : shouldIgnore (joinSlash (rel ++ [n])) pats = true) :
    walkEntries pats maxB rel ((n, t) :: rest) =
      walkEntries pats maxB rel rest := by
  rw [walkEntries.eq_def]
  simp only [walkEntry_ignored pats maxB rel n t h, bind, Except.bind]
  cases walkEntries pats maxB rel rest <;> simp [pure, Except.pure]

/-- C9: a pattern set containing the empty string makes `shouldIgnore` accept
every path (the empty string is a substring of every normalized path), so
every node under the root is excluded and the walk of any entry list yields
no snapshot entries. -/
theorem empty_pattern_ignores_all (pats : List String) (hmem : "" ∈ pats) :
    (∀ p : String, shouldIgnore p pats = true) ∧
    ∀ (maxB : Nat) (rel : List String) (es : List (String × FSTree)),
      walkEntries pats maxB rel es = .ok [] := by
  refine ⟨fun p => shouldIgnore_of_empty_mem p pats hmem, fun maxB rel es => ?_⟩
  induction es with
  | nil => rfl
  | cons e rest ih =>
    obtain ⟨n, t⟩ := e
    rw [walkEntries_cons_ignored pats maxB rel n t rest
      (shouldIgnore_of_empty_mem _ pats hmem)]
    exact ih

theorem empty_pattern_ignores_all_witness :
    shouldIgnore "any/path" [""] = true ∧
    walkEntries [""] 5 [] [("a", .file "zz" 420 true)] = .ok [] :=
  ⟨(empty_pattern_ignores_all [""] (by simp)).1 "any/path",
   (empty_pattern_ignores_all [""] (by simp)).2 5 [] _⟩

/-! ### Capture claims C8, C6, C7 -/

/-- C8: when a node's relative path matches the ignore patterns, a directory
is pruned whole — it contributes no entries no matter what its subtree holds,
with no descent — and a file is skipped as a single entry; in both cases the
walk continues with the remaining siblings unchanged. -/
theorem capture_ignore_pruning (pats : List String) (maxB : Nat)
    (rel : List String) (n : String) (t : FSTree)
    (rest : List (String × FSTree))
    (h : shouldIgnore (joinSlash (rel ++ [n])) pats = true) :
    walkEntry pats maxB rel n t = .ok [] ∧
    walkEntries pats maxB rel ((n, t) :: rest) =
      walkEntries pats maxB rel rest :=
  ⟨walkEntry_ignored pats maxB rel n t h,
   walkEntries_cons_ignored pats maxB rel n t rest h⟩

theorem capture_ignore_pruning_witness :
    walkEntry ["skip"] 100 [] "skip"
      (.dir 493 [("child", .file "data" 420 false)] true) = .ok [] ∧
    walkEntries ["skip"] 100 []
      [("skip", FSTree.dir 493 [("child", .file "data" 420 false)] true),
       ("keep", FSTree.file "y" 420 true)] =
      walkEntries ["skip"] 100 [] [("keep", FSTree.file "y" 420 true)] :=
  capture_ignore_pruning ["skip"] 100 [] "skip"
    (.dir 493 [("child", .file "data" 420 false)] true)
    [("keep", FSTree.file "y" 420 true)]
    (by simp [shouldIgnore, goBase, toSlash, containsSub, goMatch, goMatchAux,
      scanChunk, scanBody, dropStars, hasStar, matchChunk_eq, matchRanges_eq,
      getEsc, starLoop, chunksValid, joinSlash])

/-- C6: a non-ignored file whose size (contents length) is exactly the size
bound is captured with its full contents as an entry, while a file whose size
exceeds the bound is dropped entirely — no entry of any form — and the walk
continues with the remaining siblings without error. -/
theorem capture_size_boundary :
    (∀ (pats : List String) (maxB : Nat) (rel : List String) (n c : String)
        (perm : Nat) (rest : List (String × FSTree)),
      shouldIgnore (joinSlash (rel ++ [n])) pats = false →
      c.length = maxB →
      walkEntries pats maxB rel ((n, FSTree.file c perm true) :: rest) =
        (walkEntries pats maxB rel rest).map
          (fun es => ⟨joinSlash (rel ++ [n]), c, false, perm⟩ :: es)) ∧
    (∀ (pats : List String) (maxB : Nat) (rel : List String) (n c : String)
        (perm : Nat) (ro : Bool) (rest : List (String × FSTree)),
      shouldIgnore (joinSlash (rel ++ [n])) pats = false →
      c.length > maxB →
      walkEntries pats maxB rel ((n, FSTree.file c perm ro) :: rest) =
        walkEntries pats maxB rel rest) := by
  constructor
  · intro pats maxB rel n c perm rest hig hlen
    have hentry : walkEntry pats maxB rel n (FSTree.file c perm true) =
        .ok [⟨joinSlash (rel ++ [n]), c, false, perm⟩] := by
      rw [walkEntry.eq_def]
      simp [hig, hlen]
    rw [walkEntries.eq_def]
    simp only [hentry, bind, Except.bind]
    cases walkEntries pats maxB rel rest <;>
      simp [Except.map, pure, Except.pure]
  · intro pats maxB rel n c perm ro rest hig hlen
    have hentry : walkEntry pats maxB rel n (FSTree.file c perm ro) = .ok [] := by
      rw [walkEntry.eq_def]
      simp [hig, hlen]
    rw [walkEntries.eq_def]
    simp only [hentry, bind, Except.bind]
    cases walkEntries pats maxB rel rest <;>
      simp [pure, Except.pure]

theorem capture_size_boundary_witness :
    walkEntries [] 1 [] [("a.txt", FSTree.file "a" 420 true)] =
      (walkEntries ([] : List String) 1 [] ([] : List (String × FSTree))).map
        (fun es => ⟨"a.txt", "a", false, 420⟩ :: es) ∧
    walkEntries [] 1 []
      [("b.bin", FSTree.file "bb" 420 true), ("c.txt", FSTree.file "c" 420 true)] =
      walkEntries [] 1 [] [("c.txt", FSTree.file "c" 420 true)] :=
  ⟨capture_size_boundary.1 [] 1 [] "a.txt" "a" 420 [] rfl rfl,
   capture_size_boundary.2 [] 1 [] "b.bin" "bb" 420 true
     [("c.txt", FSTree.file "c" 420 true)] rfl (by decide)⟩

theorem walk_err_path (pats : List String) (maxB : Nat) :
    (∀ (rel : List String) (n : String) (t : FSTree) (e : CloneErr),
      walkEntry pats maxB rel n t = .error e → e.errPath ≠ none) ∧
    (∀ (rel : List String) (es : List (String × FSTree)) (e : CloneErr),
      walkEntries pats maxB rel es = .error e → e.errPath ≠ none) := by
  refine walkEntry.mutual_induct pats maxB
    (fun rel n t => ∀ e, walkEntry pats maxB rel n t = Except.error e →
      e.errPath ≠ none)
    (fun rel es => ∀ e, walkEntries pats maxB rel es = Except.error e →
      e.errPath ≠ none)
    ?_ ?_ ?_ ?_ ?_ ?_ ?_ ?_
  · intro t rel name rp hig e h
    have hig' : shouldIgnore (joinSlash (rel ++ [name])) pats = true := hig
    rw [walkEntry.eq_def] at h
    simp [hig'] at h
  · intro rel name rp hig contents perm readOk hlen e h
    have hig' : ¬ shouldIgnore (joinSlash (rel ++ [name])) pats = true := hig
    rw [walkEntry.eq_def] at h
    simp [hig', hlen] at h
  · intro rel name rp hig contents perm readOk hlen hro e h
    have hig' : ¬ shouldIgnore (joinSlash (rel ++ [name])) pats = true := hig
    rw [walkEntry.eq_def] at h
    simp only [if_neg hig'] at h
    rw [if_neg hlen, if_pos hro] at h
    obtain rfl : CloneErr.readError (rel ++ [name]) = e := by
      simpa using h
    simp [CloneErr.errPath]
  · intro rel name rp hig contents perm readOk hlen hro e h
    have hig' : ¬ shouldIgnore (joinSlash (rel ++ [name])) pats = true := hig
    rw [walkEntry.eq_def] at h
    simp only [if_neg hig'] at h
    rw [if_neg hlen, if_neg hro] at h
    simp at h
  · intro rel name rp hig perm entries listOk hlo e h
    have hig' : ¬ shouldIgnore (joinSlash (rel ++ [name])) pats = true := hig
    rw [walkEntry.eq_def] at h
    simp only [if_neg hig'] at h
    rw [if_pos hlo] at h
    obtain rfl : CloneErr.accessError (rel ++ [name]) = e := by
      simpa using h
    simp [CloneErr.errPath]
  · intro rel name rp hig perm entries listOk hlo ih e h
    have hig' : ¬ shouldIgnore (joinSlash (rel ++ [name])) pats = true := hig
    have ih' : ∀ e, walkEntries pats maxB (rel ++ [name]) entries =
        Except.error e → e.errPath ≠ none := ih
    rw [walkEntry.eq_def] at h
    simp only [if_neg hig'] at h
    rw [if_neg hlo] at h
    simp only [bind, Except.bind] at h
    cases hW : walkEntries pats maxB (rel ++ [name]) entries with
    | error e2 =>
      rw [hW] at h
      obtain rfl : e2 = e := by simpa using h
      exact ih' _ hW
    | ok l =>
      rw [hW] at h
      simp [pure, Except.pure] at h
  · intro rel e h
    rw [walkEntries.eq_def] at h
    simp at h
  · intro rel n t rest ih1 ih2 e h
    rw [walkEntries.eq_def] at h
    simp only [bind, Except.bind] at h
    cases hE : walkEntry pats maxB rel n t with
    | error e1 =>
      rw [hE] at h
      obtain rfl : e1 = e := by simpa using h
      exact ih1 _ hE
    | ok l =>
      rw [hE] at h
      cases hW : walkEntries pats maxB rel rest with
      | error e2 =>
        rw [hW] at h
        obtain rfl : e2 = e := by simpa using h
        exact ih2 _ hW
      | ok l2 =>
        rw [hW] at h
        simp [pure, Except.pure] at h

/-- C7: an I/O error on a non-ignored node aborts the whole capture with an
error identifying that node's path, and no snapshot document is written to
the output file — serialization happens only after the whole walk has
succeeded.  Part one: any walk error propagates out of `cloneProject` and the
output stays unwritten; parts two and three: an unreadable non-ignored file
(within the size bound) and an unlistable non-ignored directory each abort
the walk at once with an error carrying that node's relative path. -/
theorem capture_error_aborts :
    (∀ (perm : Nat) (entries : List (String × FSTree)) (extra : List String)
        (e : CloneErr),
      walkEntries (loadGitignorePatterns (findGitignore entries) ++ extra)
          maxFileSize [] entries = .error e →
      cloneProject (some (.dir perm entries true)) extra = .error e ∧
      cloneOutput (some (.dir perm entries true)) extra = none ∧
      CloneErr.errPath e ≠ none) ∧
    (∀ (pats : List String) (maxB : Nat) (rel : List String) (n c : String)
        (perm : Nat) (rest : List (String × FSTree)),
      shouldIgnore (joinSlash (rel ++ [n])) pats = false →
      ¬ c.length > maxB →
      walkEntries pats maxB rel ((n, FSTree.file c perm false) :: rest) =
        .error (.readError (rel ++ [n]))) ∧
    (∀ (pats : List String) (maxB : Nat) (rel : List String) (n : String)
        (perm : Nat) (es : List (String × FSTree))
        (rest : List (String × FSTree)),
      shouldIgnore (joinSlash (rel ++ [n])) pats = false →
      walkEntries pats maxB rel ((n, FSTree.dir perm es false) :: rest) =
        .error (.accessError (rel ++ [n]))) := by
  refine ⟨?_, ?_, ?_⟩
  · intro perm entries extra e hwalk
    have hclone : cloneProject (some (.dir perm entries true)) extra = .error e := by
      simp [cloneProject, hwalk, bind, Except.bind]
    exact ⟨hclone, by simp [cloneOutput, hclone],
      (walk_err_path _ maxFileSize).2 [] entries e hwalk⟩
  · intro pats maxB rel n c perm rest hig hlen
    have hentry : walkEntry pats maxB rel n (FSTree.file c perm false) =
        .error (.readError (rel ++ [n])) := by
      rw [walkEntry.eq_def]
      simp [hig, hlen]
    rw [walkEntries.eq_def]
    simp [hentry, bind, Except.bind]
  · intro pats maxB rel n perm es rest hig
    have hentry : walkEntry pats maxB rel n (FSTree.dir perm es false) =
        .error (.accessError (rel ++ [n])) := by
      rw [walkEntry.eq_def]
      simp [hig]
    rw [walkEntries.eq_def]
    simp [hentry, bind, Except.bind]

theorem capture_error_aborts_witness :
    cloneProject (some (.dir 493 [("data.bin", FSTree.file "x" 420 false)] true)) [] =
      .error (.readError ["data.bin"]) ∧
    cloneOutput (some (.dir 493 [("data.bin", FSTree.file "x" 420 false)] true)) [] =
      none := by
  have h2 := capture_error_aborts.2.1 [".git"] maxFileSize [] "data.bin" "x" 420 []
    (by simp [shouldIgnore, goBase, toSlash, containsSub, goMatch, goMatchAux,
      scanChunk, scanBody, dropStars, hasStar, matchChunk_eq, matchRanges_eq,
      getEsc, starLoop, chunksValid, joinSlash])
    (by decide)
  have h1 := capture_error_aborts.1 493 [("data.bin", FSTree.file "x" 420 false)] []
    (.readError ["data.bin"]) h2
  exact ⟨h1.1, h1.2.1⟩

/-! ### Restore claims C3, C10, C4 -/

/-- C3: for any snapshot document and any destination that already exists
(any node — also an empty directory), restore fails with the already-exists
error and performs no filesystem write: the resulting filesystem is exactly
the input filesystem. -/
theorem restore_existing_destination (w : World) (doc : Json)
    (dest : List String) (snap : ProjectSnapshot) (nd : RNode)
    (hdec : decodeSnapshot doc = .ok snap)
    (hstat : statW w dest = .ok nd) :
    restoreProject w doc dest = (w, some (.alreadyExists dest)) := by
  simp [restoreProject, hdec, hstat]

theorem restore_existing_destination_witness :
    restoreProject ⟨[(["dst"], .dir 493)], []⟩
      (encodeSnapshot ⟨"1.0.0", [⟨"file.txt", "content", false, 420⟩]⟩)
      ["dst"] =
      (⟨[(["dst"], .dir 493)], []⟩, some (.alreadyExists ["dst"])) :=
  restore_existing_destination ⟨[(["dst"], .dir 493)], []⟩
    (encodeSnapshot ⟨"1.0.0", [⟨"file.txt", "content", false, 420⟩]⟩)
    ["dst"] ⟨"1.0.0", [⟨"file.txt", "content", false, 420⟩]⟩ (.dir 493)
    rfl rfl

/-- C10: when `os.Stat` on the destination fails with any error — not only
not-exist, also for example a permission error — restore treats the
destination as absent: it does not abort with the stat error but proceeds to
create the destination and materialize the entries. -/
theorem restore_stat_error_proceeds (w : World) (doc : Json)
    (dest : List String) (snap : ProjectSnapshot) (e : StatErr)
    (hdec : decodeSnapshot doc = .ok snap)
    (hstat : statW w dest = .error e) :
    restoreProject w doc dest = materializePhase w dest snap := by
  simp [restoreProject, hdec, hstat]

theorem restore_stat_error_proceeds_witness :
    restoreProject ⟨[], [["dst"]]⟩
      (encodeSnapshot ⟨"1.0.0", [⟨"a.txt", "hi", false, 420⟩]⟩) ["dst"] =
      materializePhase ⟨[], [["dst"]]⟩ ["dst"]
        ⟨"1.0.0", [⟨"a.txt", "hi", false, 420⟩]⟩ :=
  restore_stat_error_proceeds ⟨[], [["dst"]]⟩
    (encodeSnapshot ⟨"1.0.0", [⟨"a.txt", "hi", false, 420⟩]⟩) ["dst"]
    ⟨"1.0.0", [⟨"a.txt", "hi", false, 420⟩]⟩ .permission rfl rfl

theorem mkdirStep_lookup (w : World) (p : List String) (perm : Nat)
    (w' : World) (h : mkdirStep w p perm = .ok w') :
    ∀ q, lookupW w' q = lookupW w q ∨ lookupW w' q = some (.dir perm) := by
  intro q
  unfold mkdirStep at h
  split at h
  · left
    obtain rfl : w = w' := by simpa using h
    rfl
  · simp at h
  · obtain rfl : (⟨(p, .dir perm) :: w.nodes, w.statBroken⟩ : World) = w' := by
      simpa using h
    by_cases hq : p = q
    · subst hq
      right
      simp [lookupW, List.find?]
    · left
      simp [lookupW, List.find?, hq]

theorem mkdirAllAux_lookup (w : World) (done todo : List String) (perm : Nat)
    (w' : World) (h : mkdirAllAux w done todo perm = .ok w') :
    ∀ q, lookupW w' q = lookupW w q ∨ lookupW w' q = some (.dir perm) := by
  induction todo generalizing w done with
  | nil =>
    obtain rfl : w = w' := by simpa [mkdirAllAux] using h
    intro q
    left
    rfl
  | cons s rest ih =>
    intro q
    rw [mkdirAllAux] at h
    split at h
    · simp at h
    · rename_i w1 hstep
      rcases ih _ _ h q with h1 | h1
      · rcases mkdirStep_lookup w _ perm w1 hstep q with h2 | h2
        · left
          rw [h1, h2]
        · right
          rw [h1, h2]
      · right
        exact h1

theorem mkdirAll_lookup (w : World) (p : List String) (perm : Nat)
    (w' : World) (h : mkdirAll w p perm = .ok w') :
    ∀ q, lookupW w' q = lookupW w q ∨ lookupW w' q = some (.dir perm) := by
  unfold mkdirAll at h
  split at h
  · obtain rfl : w = w' := by simpa using h
    intro q
    left
    rfl
  · simp at h
  · exact mkdirAllAux_lookup w [] p perm w' h

/-- C4 counterexample: restoring a snapshot with a single directory entry of
stored mode zero creates the directory with mode 0 — no default directory
mode is substituted (the code's own directory default `dirPerms` is 0o755,
and 0 ≠ 0o755): for directory entries `os.MkdirAll(path, fs.FileMode(
file.Mode))` applies the stored mode verbatim, the zero check existing only
for files. -/
theorem restore_zero_mode_dir_cex :
    lookupW (restoreProject ⟨[], []⟩
      (encodeSnapshot ⟨"1.0.0", [⟨"d", "", true, 0⟩]⟩) ["dst"]).1
      ["dst", "d"] = some (.dir 0) ∧ (0 : Nat) ≠ dirPerms := by
  constructor
  · rfl
  · decide

/-- C4 (amended): a directory entry of the snapshot is created — together
with its missing ancestors — with the entry's stored mode applied verbatim,
including when the stored mode is zero; no default directory mode is
substituted (the zero-mode default exists only for file entries). -/
theorem restore_dir_mode_verbatim (w : World) (dest : List String)
    (f : FileInfo) (rest : List FileInfo) (w' : World)
    (hdir : f.isDir = true)
    (hmk : mkdirAll w (dest ++ splitSlash f.path) f.mode = .ok w') :
    materialize w dest (f :: rest) = materialize w' dest rest ∧
    ∀ q, lookupW w' q = lookupW w q ∨ lookupW w' q = some (.dir f.mode) := by
  constructor
  · rw [materialize.eq_def]
    simp [hdir, hmk]
  · exact mkdirAll_lookup w _ f.mode w' hmk

theorem restore_dir_mode_verbatim_witness :
    materialize ⟨[(["dst"], .dir 493)], []⟩ ["dst"] [⟨"d", "", true, 0⟩] =
      materialize ⟨[(["dst", "d"], .dir 0), (["dst"], .dir 493)], []⟩
        ["dst"] [] :=
  (restore_dir_mode_verbatim ⟨[(["dst"], .dir 493)], []⟩ ["dst"]
    ⟨"d", "", true, 0⟩ []
    ⟨[(["dst", "d"], .dir 0), (["dst"], .dir 493)], []⟩ rfl rfl).1

end Snapdir
